import Mathlib

set_option maxHeartbeats 1000000

namespace LeadMgmt

/-! # Part 1: Definitions

Shallow embedding of the lead-management backend: `server.js` (the HTTP
handlers and the lead extractor) and the schema/seed script. -/

/-! ## String model

JavaScript strings are modelled as lists of characters.  The repository's
strings are ASCII, so `Char.toLower` agrees with JavaScript's
`toLowerCase` on every character that occurs. -/

abbrev Str := List Char

def jstr (s : String) : Str := s.data

/-! ## Character classes of the two regular expressions in `server.js`

`emailRegex`: `\b[A-Za-z0-9._%+-]+@[A-Za-z0-9.-]+\.[A-Z|a-z]{2,}\b`
(server.js line 278); note that the TLD class `[A-Z|a-z]` contains the
literal character `|` in addition to the letters.

`phoneRegex`: `\b\d{3}[-.]?\d{3}[-.]?\d{4}\b` (server.js line 279).

`isWordChar` is JavaScript's `\w` (`[A-Za-z0-9_]`), which also defines the
word-boundary assertion `\b`. -/

def isWordChar (c : Char) : Bool := c.isAlpha || c.isDigit || c == '_'

def isLocalChar (c : Char) : Bool :=
  c.isAlpha || c.isDigit || c == '.' || c == '_' || c == '%' || c == '+' || c == '-'

def isDomainChar (c : Char) : Bool := c.isAlpha || c.isDigit || c == '.' || c == '-'

def isTldChar (c : Char) : Bool := c.isAlpha || c == '|'

def isSepChar (c : Char) : Bool := c == '-' || c == '.'

/-- Whether the character at position `i` (if any) is a word character. -/
def wordAt (s : Str) (i : Nat) : Bool :=
  match s[i]? with
  | some c => isWordChar c
  | none => false

/-- The `\b` assertion of JavaScript regular expressions at position `i`:
exactly one of the character before `i` and the character at `i` is a word
character (positions outside the string count as non-word). -/
def wbAt (s : Str) (i : Nat) : Bool :=
  (if i = 0 then false else wordAt s (i - 1)) != wordAt s i

/-! ## Maximal runs of a character class -/

/-- Length of the maximal leading run of characters satisfying `p`. -/
def takeRun (p : Char → Bool) : Str → Nat
  | [] => 0
  | c :: cs => if p c then takeRun p cs + 1 else 0

/-- Length of the maximal run of characters satisfying `p` starting at
position `i` of `s`. -/
def runLen (p : Char → Bool) (s : Str) (i : Nat) : Nat := takeRun p (s.drop i)

/-- All of the `n` characters starting at position `i` exist and satisfy `p`. -/
def segAll (p : Char → Bool) (s : Str) (i n : Nat) : Bool :=
  (List.range n).all fun k =>
    match s[i + k]? with
    | some c => p c
    | none => false

/-! ## Backtracking priority lists

A greedy subexpression tries the longest candidate first; `descRange n`
is the priority order `[n, n-1, …, 1]` of a `+`-quantified class run of
maximal length `n`, and `descRangeFrom2` the order for a `{2,}` run. -/

def descRange : Nat → List Nat
  | 0 => []
  | n + 1 => (n + 1) :: descRange n

def descRangeFrom2 (n : Nat) : List Nat :=
  (descRange n).filter fun t => decide (2 ≤ t)

/-! ## The scan loop of `String.prototype.match`

A JavaScript regular expression without the `g` flag matches at the least
starting position at which the pattern matches; `scanAux` tries starting
positions in ascending order.  `m s i` returns the end position of the
(backtracking-priority) match of the pattern at start `i`, if any. -/

def scanAux (m : Str → Nat → Option Nat) (s : Str) : Nat → Nat → Option (Nat × Nat)
  | 0, _ => none
  | k + 1, i =>
    match m s i with
    | some j => some (i, j)
    | none => scanAux m s k (i + 1)

def firstMatch (m : Str → Nat → Option Nat) (s : Str) : Option (Nat × Nat) :=
  scanAux m s (s.length + 1) 0

/-- The substring of `s` from position `i` (inclusive) to `j` (exclusive),
as returned by a regular-expression match. -/
def slice (s : Str) (i j : Nat) : Str := (s.drop i).take (j - i)

/-! ## The email regular expression

`emailMatchAt s i` is the backtracking match of
`\b[A-Za-z0-9._%+-]+@[A-Za-z0-9.-]+\.[A-Z|a-z]{2,}\b` at start position
`i`, returning the end position of the match.  The local-part run is
forced to be maximal: a shorter run would have to be followed by `@`,
which itself belongs to the local class, contradicting maximality of a
run; so only the `+`-runs of the domain and TLD backtrack, in greedy
(descending) priority order. -/

def emailMatchAt (s : Str) (i : Nat) : Option Nat :=
  if wbAt s i = true then
    let l := runLen isLocalChar s i
    if l = 0 then none
    else if s[i + l]? = some '@' then
      let p := i + l + 1
      (descRange (runLen isDomainChar s p)).findSome? fun d =>
        if s[p + d]? = some '.' then
          let q := p + d + 1
          (descRangeFrom2 (runLen isTldChar s q)).findSome? fun t =>
            if wbAt s (q + t) = true then some (q + t) else none
        else none
    else none
  else none

/-- Declarative reading of an email-shaped token: positions `i` to `j` of
`s` decompose as local-part, `@`, domain, `.`, TLD (TLD class `T`), with
word boundaries at both ends.  With `T = isTldChar` this is the token set
of the code's `emailRegex`; with `T = Char.isAlpha` it is the token set of
the specification's pattern (TLD of at least two letters). -/
def isEmailTokAt (T : Char → Bool) (s : Str) (i j : Nat) : Bool :=
  wbAt s i && wbAt s j &&
  ((List.range (j + 1)).any fun l =>
    decide (1 ≤ l) && segAll isLocalChar s i l && decide (s[i + l]? = some '@') &&
    ((List.range (j + 1)).any fun d =>
      decide (1 ≤ d) && segAll isDomainChar s (i + l + 1) d &&
      decide (s[i + l + 1 + d]? = some '.') &&
      (decide (2 ≤ j - (i + l + 1 + d + 1)) &&
       decide (i + l + 1 + d + 1 + (j - (i + l + 1 + d + 1)) = j) &&
       segAll T s (i + l + 1 + d + 1) (j - (i + l + 1 + d + 1)))))

/-! ## The phone regular expression -/

/-- Whether the character at position `k` (if any) is `-` or `.`. -/
def sepAtB (s : Str) (k : Nat) : Bool :=
  match s[k]? with
  | some c => isSepChar c
  | none => false

/-- Priority order of the optional separator `[-.]?` at position `k`:
greedy, so if a separator character is present the one-character
alternative is tried before the empty one. -/
def sepCandidates (s : Str) (k : Nat) : List Nat :=
  if sepAtB s k = true then [1, 0] else [0]

/-- `phoneMatchAt s i` is the backtracking match of
`\b\d{3}[-.]?\d{3}[-.]?\d{4}\b` at start position `i`, returning the end
position of the match. -/
def phoneMatchAt (s : Str) (i : Nat) : Option Nat :=
  if wbAt s i = true then
    if segAll Char.isDigit s i 3 = true then
      (sepCandidates s (i + 3)).findSome? fun a =>
        if segAll Char.isDigit s (i + 3 + a) 3 = true then
          (sepCandidates s (i + 6 + a)).findSome? fun b =>
            if segAll Char.isDigit s (i + 6 + a + b) 4 = true &&
               wbAt s (i + 10 + a + b) = true
            then some (i + 10 + a + b) else none
        else none
    else none
  else none

/-- Declarative reading of a phone-shaped token: three digits, an optional
`-` or `.`, three digits, an optional `-` or `.`, four digits, delimited
by word boundaries. -/
def isPhoneTokAt (s : Str) (i j : Nat) : Bool :=
  wbAt s i && wbAt s j &&
  (([(0, 0), (0, 1), (1, 0), (1, 1)] : List (Nat × Nat)).any fun ab =>
    segAll Char.isDigit s i 3 &&
    (decide (ab.1 = 0) || sepAtB s (i + 3)) &&
    segAll Char.isDigit s (i + 3 + ab.1) 3 &&
    (decide (ab.2 = 0) || sepAtB s (i + 6 + ab.1)) &&
    segAll Char.isDigit s (i + 6 + ab.1 + ab.2) 4 &&
    decide (j = i + 10 + ab.1 + ab.2))

/-- `s` contains a token of the token predicate `tok` (tokens of both
regular expressions always lie inside the string, so bounding the search
by the length loses nothing). -/
def containsTok (tok : Str → Nat → Nat → Bool) (s : Str) : Bool :=
  (List.range (s.length + 1)).any fun i =>
    (List.range (s.length + 1)).any fun j => tok s i j

/-! ## The lead extractor (`extractLeadFromEmail`, server.js lines 276-304)

`extractCore` is the body of the `try` block evaluated at three string
arguments (on strings no step of the body can throw).  Field by field:
- `email  := from.match(emailRegex)?.[0]`
- `phone  := body.match(phoneRegex)?.[0]`
- `name   := from.split('@')[0].replace(/[._]/g, ' ')`
- `vehicle:= vehicles.find(v => body.toLowerCase().includes(v) ||
             subject.toLowerCase().includes(v)) || 'Not specified'`
- `notes  := `Email Subject: ${subject}\n\nEmail Body:
             ${body.substring(0, 500)}...`` -/

structure LeadCand where
  name : Str
  email : Option Str
  phone : Option Str
  vehicle : Str
  notes : Str
deriving DecidableEq

/-- `hay.includes(needle)` would start with this prefix test. -/
def leadsWith : Str → Str → Bool
  | [], _ => true
  | _ :: _, [] => false
  | c :: cs, h :: hs => c == h && leadsWith cs hs

/-- JavaScript `hay.includes(needle)`. -/
def strContains (hay needle : Str) : Bool :=
  (List.range (hay.length + 1)).any fun i => leadsWith needle (hay.drop i)

/-- JavaScript `s.toLowerCase()` (ASCII). -/
def lowerStr (s : Str) : Str := s.map Char.toLower

/-- `from.split('@')[0]`: the characters before the first `@` (the whole
string if there is none). -/
def splitLocal : Str → Str
  | [] => []
  | c :: cs => if c == '@' then [] else c :: splitLocal cs

/-- The fixed vehicle vocabulary of server.js line 288, in order. -/
def vehiclesVocab : List Str :=
  [jstr "toyota", jstr "honda", jstr "ford", jstr "chevrolet",
   jstr "nissan", jstr "bmw", jstr "mercedes", jstr "audi"]

/-- The predicate of `vehicles.find` (server.js lines 289-291): the
keyword occurs, case-insensitively, in the body or in the subject. -/
def occursIn (su bo v : Str) : Bool :=
  strContains (lowerStr bo) v || strContains (lowerStr su) v

def extractCore (f su bo : Str) : LeadCand :=
  { name := (splitLocal f).map fun c => if c == '.' || c == '_' then ' ' else c
    email := (firstMatch emailMatchAt f).map fun ij => slice f ij.1 ij.2
    phone := (firstMatch phoneMatchAt bo).map fun ij => slice bo ij.1 ij.2
    vehicle := ((vehiclesVocab.find? fun v => occursIn su bo v).getD (jstr "Not specified"))
    notes := jstr "Email Subject: " ++ su ++ jstr "\n\nEmail Body: " ++
             bo.take 500 ++ jstr "..." }

/-! ## JavaScript values and the `try`/`catch` of `extractLeadFromEmail`

The handler passes `req.body.from/subject/body` straight into
`extractLeadFromEmail`; each of them is a string or a missing/null JSON
value.  `extractInner` is the `try` block over such values:
- a non-string `from` throws at `from.match(...)` (line 281);
- otherwise a non-string `body` throws at `body.match(...)` (line 282);
- otherwise a non-string `subject` throws at `subject.toLowerCase()`
  inside the `find` callback (line 290) — but only if that callback is
  evaluated past the short-circuit `||`, i.e. only if the body does not
  contain the first keyword `'toyota'`; if the body does contain it,
  `find` returns at the first keyword without touching `subject`, and the
  template literal in `notes` then renders the non-string subject as the
  text `null`/`undefined` without throwing. -/

inductive JSVal where
  | vstr : Str → JSVal
  | vnull : JSVal
  | vundef : JSVal
deriving DecidableEq

/-- Template-literal rendering `${x}` of a JSVal. -/
def jsToString : JSVal → Str
  | .vstr s => s
  | .vnull => jstr "null"
  | .vundef => jstr "undefined"

def extractInner (fr su bo : JSVal) : Except Unit LeadCand :=
  match fr with
  | .vstr f =>
    match bo with
    | .vstr b =>
      match su with
      | .vstr s => Except.ok (extractCore f s b)
      | _ =>
        if strContains (lowerStr b) (jstr "toyota") = true
        then Except.ok (extractCore f (jsToString su) b)
        else Except.error ()
    | _ => Except.error ()
  | _ => Except.error ()

/-- `extractLeadFromEmail` itself: the `catch` converts any throw of the
`try` block into the `null` result (server.js lines 300-303). -/
def extractLeadFromEmail (fr su bo : JSVal) : Option LeadCand :=
  match extractInner fr su bo with
  | Except.ok r => some r
  | Except.error _ => none

/-! ## Authenticated identity (Auth Gate)

`jwt.sign` at login (server.js lines 73-77) puts exactly `userId`, `email`
and `role` into the token; `authenticateToken` (lines 35-48) sets
`req.user` to that payload. -/

structure AuthUser where
  userId : Nat
  email : Str
  role : Str
deriving DecidableEq

/-- `req.user.dealership_id` as read by the leads handlers: the token
payload carries no `dealership_id` property, so the property read yields
`undefined`, which node-postgres passes to the query as SQL `NULL`. -/
def tokenDealership (u : AuthUser) : Option Nat := none

/-! ## Database rows (schema of the seed script) -/

structure DealershipRow where
  id : Nat
  name : Str
  address : Str
  phone : Str
  email : Str
  created_at : Nat
deriving DecidableEq

structure UserRow where
  id : Nat
  email : Str
  password : Str
  name : Str
  role : Str
  dealership_id : Option Nat
  created_at : Nat
  updated_at : Nat
deriving DecidableEq

structure LeadRow where
  id : Nat
  customer_name : Str
  customer_email : Option Str
  customer_phone : Option Str
  vehicle_interest : Option Str
  source : Str
  notes : Option Str
  priority : Str
  status : Str
  assigned_to : Option Nat
  dealership_id : Option Nat
  created_at : Nat
  updated_at : Nat
deriving DecidableEq

/-- SQL `=` between a nullable integer column and a nullable parameter:
a comparison with `NULL` is never true, including `NULL = NULL`. -/
def sqlEqOptNat : Option Nat → Option Nat → Bool
  | some x, some y => x == y
  | _, _ => false

/-- Insertion into a list sorted by `created_at` descending. -/
def insertByCreated (x : LeadRow) : List LeadRow → List LeadRow
  | [] => [x]
  | y :: ys => if y.created_at ≤ x.created_at then x :: y :: ys
               else y :: insertByCreated x ys

/-- `ORDER BY created_at DESC`. -/
def sortByCreatedDesc : List LeadRow → List LeadRow
  | [] => []
  | x :: xs => insertByCreated x (sortByCreatedDesc xs)

/-- The admin branch of the dealership filter: `else if (dealership_id)`
(server.js line 119); `none` is an absent or falsy query parameter. -/
def dealershipFilter (dq : Option Nat) (leads : List LeadRow) : List LeadRow :=
  match dq with
  | some d => leads.filter fun l => sqlEqOptNat l.dealership_id (some d)
  | none => leads

/-- The `if (status)` filter (server.js lines 124-127); the empty string
is falsy, so it adds no filter. -/
def statusFilter (sq : Option Str) (l1 : List LeadRow) : List LeadRow :=
  match sq with
  | some st => if st.isEmpty = true then l1 else l1.filter fun l => l.status == st
  | none => l1

/-- `GET /api/leads` (server.js lines 110-137).  A non-admin gets
`AND dealership_id = $1` with `$1 = req.user.dealership_id`, which the
token payload does not carry (see `tokenDealership`); an admin may filter
by the `dealership_id` query parameter; a truthy `status` query parameter
adds a status filter; rows come back ordered by `created_at` descending. -/
def getLeadsHandler (u : AuthUser) (statusQ : Option Str) (dealershipQ : Option Nat)
    (leads : List LeadRow) : List LeadRow :=
  let l1 := if (u.role != jstr "admin") = true then
      leads.filter fun l => sqlEqOptNat l.dealership_id (tokenDealership u)
    else dealershipFilter dealershipQ leads
  sortByCreatedDesc (statusFilter statusQ l1)

/-- The request body of `PUT /api/leads/:id`; `none` is an absent (or
JSON-null) field, which reaches the query as SQL `NULL`. -/
structure PutBody where
  customer_name : Option Str
  customer_email : Option Str
  customer_phone : Option Str
  vehicle_interest : Option Str
  status : Option Str
  notes : Option Str
  priority : Option Str
  assigned_to : Option Nat
deriving DecidableEq

/-- One row updated by the `UPDATE ... SET col = COALESCE($i, col)` of
`PUT /api/leads/:id` (server.js lines 192-217): a provided (non-null)
request field replaces the column, an absent one keeps the stored value;
`updated_at` is set to `NOW()`. -/
def applyUpdate (b : PutBody) (now : Nat) (l : LeadRow) : LeadRow :=
  { l with
    customer_name := match b.customer_name with | some v => v | none => l.customer_name
    customer_email := match b.customer_email with | some v => some v | none => l.customer_email
    customer_phone := match b.customer_phone with | some v => some v | none => l.customer_phone
    vehicle_interest := match b.vehicle_interest with
                        | some v => some v
                        | none => l.vehicle_interest
    status := match b.status with | some v => v | none => l.status
    notes := match b.notes with | some v => some v | none => l.notes
    priority := match b.priority with | some v => v | none => l.priority
    assigned_to := match b.assigned_to with | some v => some v | none => l.assigned_to
    updated_at := now }

structure PutResult where
  status : Nat
  body : Option LeadRow
  db : List LeadRow
deriving DecidableEq

/-- Whether the UPDATE's WHERE clause `id = $9 AND dealership_id = $10`
selects row `l` (`$10` being the caller's token `dealership_id`). -/
def putHits (u : AuthUser) (lid : Nat) (l : LeadRow) : Bool :=
  l.id == lid && sqlEqOptNat l.dealership_id (tokenDealership u)

/-- `PUT /api/leads/:id` (server.js lines 178-228): run the UPDATE with
`RETURNING *`; `result.rows` holds the updated rows (here `returned`);
if it is empty answer `404` with no body row, else `200` with
`result.rows[0]`. -/
def putLeadHandler (u : AuthUser) (lid : Nat) (b : PutBody) (now : Nat)
    (db : List LeadRow) : PutResult :=
  let db2 := db.map fun l => if putHits u lid l = true then applyUpdate b now l else l
  let returned := (db.filter (putHits u lid)).map (applyUpdate b now)
  ⟨if returned.isEmpty = true then 404 else 200, returned.head?, db2⟩

structure PostResult where
  status : Nat
  lead : Option LeadRow
  db : List LeadRow
deriving DecidableEq

/-- The row inserted by `POST /api/process-email` (server.js lines
240-257): source `email`, priority `medium`, status `new`, dealership 1,
`created_at` from `receivedDate`; `assigned_to` is not supplied (NULL)
and `updated_at` takes the column default `NOW()`. -/
def mkEmailLead (ld : LeadCand) (recvd now seq : Nat) : LeadRow :=
  ⟨seq, ld.name, ld.email, ld.phone, some ld.vehicle, jstr "email", some ld.notes,
   jstr "medium", jstr "new", none, some 1, recvd, now⟩

/-- `POST /api/process-email` (server.js lines 231-273): run the
extractor; on a non-null candidate insert the lead and answer `201` with
it, otherwise answer `400` and insert nothing. -/
def processEmailHandler (fr su bo : JSVal) (recvd now seq : Nat)
    (db : List LeadRow) : PostResult :=
  match extractLeadFromEmail fr su bo with
  | some ld =>
      ⟨201, some (mkEmailLead ld recvd now seq), db ++ [mkEmailLead ld recvd now seq]⟩
  | none => ⟨400, none, db⟩

/-! ## The schema/seed script (`setupDatabase`) -/

structure DB where
  dealerships : List DealershipRow
  users : List UserRow
  leads : List LeadRow
  dseq : Nat
  useq : Nat
  lseq : Nat
deriving DecidableEq

def emptyDB : DB := ⟨[], [], [], 1, 1, 1⟩

/-- `INSERT INTO users ... ON CONFLICT (email) DO UPDATE SET password =
EXCLUDED.password, name = ..., role = ..., dealership_id = ...`:
`users.email` is UNIQUE, so on a conflicting email the existing row's
four listed columns are overwritten (timestamps untouched), otherwise a
fresh row is inserted with the next serial id. -/
def upsertUser (db : DB) (em pw nm rl : Str) (did : Option Nat) : DB :=
  if db.users.any (fun u => u.email == em) then
    { db with users := db.users.map fun u =>
        if u.email == em then
          { u with password := pw, name := nm, role := rl, dealership_id := did }
        else u }
  else
    { db with users := db.users ++ [⟨db.useq, em, pw, nm, rl, did, 0, 0⟩],
              useq := db.useq + 1 }

/-- One `INSERT ... ON CONFLICT DO NOTHING` into `leads`: the leads table
has no unique or exclusion constraint (its serial primary key is not
supplied by the insert), so no conflict can arise and the row is always
inserted. -/
def insertLeadSeed (db : DB) (nm em ph vh src nts pri : Str)
    (assigned dealership : Nat) : DB :=
  { db with
    leads := db.leads ++ [⟨db.lseq, nm, some em, some ph, some vh, src, some nts,
      pri, jstr "new", some assigned, some dealership, 0, 0⟩],
    lseq := db.lseq + 1 }

/-- The schema/seed script `setupDatabase`, run with the two bcrypt
outputs `hA`/`hR` of that run (bcrypt salts are random, so each run
produces fresh hash strings for the same plaintext).  `CREATE TABLE IF
NOT EXISTS` and `CREATE INDEX IF NOT EXISTS` do not change row state.
The dealership seed uses `ON CONFLICT DO NOTHING` without a conflict
target, and the `dealerships` table has no unique or exclusion constraint
the insert could violate (its serial primary key is not supplied), so the
insert always succeeds and `RETURNING id` always returns the fresh id;
the script's `rows.length = 0` fallback (`SELECT id FROM dealerships
LIMIT 1`) is kept for faithfulness although it can never be taken. -/
def setupDatabase (hA hR : Str) (db : DB) : DB :=
  let newD : DealershipRow :=
    ⟨db.dseq, jstr "AutoClick Motors", jstr "123 Main Street, Anytown, USA",
     jstr "(555) 123-4567", jstr "info@autoclick.com", 0⟩
  let db1 : DB := { db with dealerships := db.dealerships ++ [newD], dseq := db.dseq + 1 }
  let rows : List Nat := [newD.id]
  let dealershipId : Nat :=
    match rows with
    | i :: _ => i
    | [] => match db1.dealerships with
            | d :: _ => d.id
            | [] => 0
  let db2 := upsertUser db1 (jstr "admin@autoclick.com") hA (jstr "Admin User")
    (jstr "admin") (some dealershipId)
  let db3 := upsertUser db2 (jstr "rep@autoclick.com") hR (jstr "Sales Representative")
    (jstr "sales_rep") (some dealershipId)
  let adminUserId : Nat :=
    match db3.users.find? (fun u => u.email == jstr "admin@autoclick.com") with
    | some u => u.id
    | none => 0
  let db4 := insertLeadSeed db3 (jstr "John Smith") (jstr "john.smith@email.com")
    (jstr "(555) 123-4567") (jstr "Toyota Camry") (jstr "website")
    (jstr "Interested in 2024 model, financing needed") (jstr "high")
    adminUserId dealershipId
  let db5 := insertLeadSeed db4 (jstr "Sarah Johnson") (jstr "sarah.j@email.com")
    (jstr "(555) 987-6543") (jstr "Honda Accord") (jstr "email")
    (jstr "Looking for reliable family car") (jstr "medium")
    adminUserId dealershipId
  insertLeadSeed db5 (jstr "Mike Wilson") (jstr "mike.wilson@email.com")
    (jstr "(555) 456-7890") (jstr "Ford F-150") (jstr "phone")
    (jstr "Needs truck for work, cash buyer") (jstr "high")
    adminUserId dealershipId

/-! # Part 2: Theorems -/

/-! ## Lemmas about runs and segments -/

theorem takeRun_spec1 (p : Char → Bool) :
    ∀ (l : Str) (k : Nat), k < takeRun p l → ∃ c, l[k]? = some c ∧ p c = true := by
  intro l
  induction l with
  | nil => intro k hk; simp [takeRun] at hk
  | cons c cs ih =>
    intro k hk
    by_cases hc : p c = true
    · cases k with
      | zero => exact ⟨c, by simp, hc⟩
      | succ k =>
        simp only [takeRun, hc, if_true] at hk
        have := ih k (by omega)
        simpa using this
    · simp [takeRun, hc] at hk

theorem takeRun_spec2 (p : Char → Bool) :
    ∀ (l : Str) (c : Char), l[takeRun p l]? = some c → p c = false := by
  intro l
  induction l with
  | nil => intro c hc; simp at hc
  | cons a as ih =>
    intro c hc
    by_cases ha : p a = true
    · simp only [takeRun, ha, if_true] at hc
      exact ih c (by simpa using hc)
    · simp only [takeRun, ha, if_false] at hc
      simp at hc
      subst hc
      simpa using ha

theorem takeRun_ge (p : Char → Bool) :
    ∀ (l : Str) (n : Nat), (∀ k, k < n → ∃ c, l[k]? = some c ∧ p c = true) →
      n ≤ takeRun p l := by
  intro l
  induction l with
  | nil =>
    intro n h
    cases n with
    | zero => simp
    | succ m =>
      obtain ⟨c, hc, _⟩ := h 0 (by omega)
      simp at hc
  | cons a as ih =>
    intro n h
    cases n with
    | zero => simp
    | succ m =>
      obtain ⟨c, hc, hpc⟩ := h 0 (by omega)
      simp at hc
      subst hc
      simp only [takeRun, hpc, if_true]
      have : m ≤ takeRun p as := by
        apply ih
        intro k hk
        have := h (k + 1) (by omega)
        simpa using this
      omega

theorem getq_drop : ∀ (s : Str) (i k : Nat), (s.drop i)[k]? = s[i + k]? := by
  intro s
  induction s with
  | nil => intro i k; simp
  | cons a as ih =>
    intro i k
    cases i with
    | zero => simp
    | succ i =>
      have h1 : i + 1 + k = (i + k) + 1 := by omega
      rw [h1]
      have h2 := ih i k
      simp only [List.drop_succ_cons, List.getElem?_cons_succ]
      exact h2

theorem segAll_iff (p : Char → Bool) (s : Str) (i n : Nat) :
    segAll p s i n = true ↔ (∀ k, k < n → ∃ c, s[i + k]? = some c ∧ p c = true) := by
  simp only [segAll, List.all_eq_true, List.mem_range]
  constructor
  · intro h k hk
    have := h k hk
    cases hg : s[i + k]? with
    | none => rw [hg] at this; simp at this
    | some c => rw [hg] at this; exact ⟨c, rfl, this⟩
  · intro h k hk
    obtain ⟨c, hc, hpc⟩ := h k hk
    rw [hc]
    exact hpc

theorem segAll_of_le_runLen (p : Char → Bool) (s : Str) (i n : Nat)
    (h : n ≤ runLen p s i) : segAll p s i n = true := by
  rw [segAll_iff]
  intro k hk
  have := takeRun_spec1 p (s.drop i) k (by unfold runLen at h; omega)
  rwa [getq_drop] at this

theorem runLen_ge_of_segAll (p : Char → Bool) (s : Str) (i n : Nat)
    (h : segAll p s i n = true) : n ≤ runLen p s i := by
  rw [segAll_iff] at h
  apply takeRun_ge
  intro k hk
  rw [getq_drop]
  exact h k hk

theorem runLen_le_of_stop (p : Char → Bool) (s : Str) (i n : Nat) (c : Char)
    (hc : s[i + n]? = some c) (hpc : p c = false) : runLen p s i ≤ n := by
  by_contra h
  push_neg at h
  obtain ⟨d, hd, hpd⟩ := takeRun_spec1 p (s.drop i) n (by unfold runLen at h; omega)
  rw [getq_drop, hc] at hd
  cases hd
  rw [hpd] at hpc
  cases hpc

theorem runLen_eq_of_stop (p : Char → Bool) (s : Str) (i n : Nat) (c : Char)
    (hseg : segAll p s i n = true) (hc : s[i + n]? = some c) (hpc : p c = false) :
    runLen p s i = n :=
  Nat.le_antisymm (runLen_le_of_stop p s i n c hc hpc) (runLen_ge_of_segAll p s i n hseg)

theorem wordAt_oob (s : Str) (i : Nat) (h : s.length ≤ i) : wordAt s i = false := by
  unfold wordAt
  rw [List.getElem?_eq_none h]

theorem wbAt_le_length (s : Str) (i : Nat) (h : wbAt s i = true) : i ≤ s.length := by
  by_contra hlt
  push_neg at hlt
  unfold wbAt at h
  have h0 : i ≠ 0 := by omega
  rw [if_neg h0, wordAt_oob s i (by omega), wordAt_oob s (i - 1) (by omega)] at h
  simp at h

/-! ## Lemmas about the priority lists and `findSome?` -/

theorem mem_descRange : ∀ (n d : Nat), d ∈ descRange n ↔ (1 ≤ d ∧ d ≤ n) := by
  intro n
  induction n with
  | zero =>
    intro d
    constructor
    · intro h; simp [descRange] at h
    · intro h; omega
  | succ m ih =>
    intro d
    simp only [descRange, List.mem_cons, ih]
    omega

theorem mem_descRangeFrom2 (n t : Nat) : t ∈ descRangeFrom2 n ↔ (2 ≤ t ∧ t ≤ n) := by
  simp only [descRangeFrom2, List.mem_filter, mem_descRange, decide_eq_true_eq]
  omega

theorem findSome?_mem_of_eq_some {α β : Type} (f : α → Option β) :
    ∀ (l : List α) (b : β), l.findSome? f = some b → ∃ a, a ∈ l ∧ f a = some b := by
  intro l
  induction l with
  | nil => intro b hb; simp [List.findSome?] at hb
  | cons a as ih =>
    intro b hb
    rw [List.findSome?_cons] at hb
    cases hfa : f a with
    | some c =>
      rw [hfa] at hb
      simp at hb
      exact ⟨a, List.mem_cons_self a as, by rw [hfa, hb]⟩
    | none =>
      rw [hfa] at hb
      simp only at hb
      obtain ⟨x, hx, hfx⟩ := ih b hb
      exact ⟨x, List.mem_cons_of_mem a hx, hfx⟩

theorem findSome?_isSome_of_mem {α β : Type} (f : α → Option β) :
    ∀ (l : List α) (a : α) (b : β), a ∈ l → f a = some b →
      (l.findSome? f).isSome = true := by
  intro l
  induction l with
  | nil => intro a b ha; simp at ha
  | cons x xs ih =>
    intro a b ha hfa
    rw [List.findSome?_cons]
    cases hfx : f x with
    | some c => simp
    | none =>
      rcases List.mem_cons.mp ha with h | h
      · subst h; rw [hfa] at hfx; cases hfx
      · exact ih a b h hfa

/-! ## Lemmas about the scan loop -/

theorem scanAux_eq_some (m : Str → Nat → Option Nat) (s : Str) :
    ∀ (k i i' j : Nat), scanAux m s k i = some (i', j) →
      m s i' = some j ∧ i ≤ i' ∧ ∀ x, i ≤ x → x < i' → m s x = none := by
  intro k
  induction k with
  | zero => intro i i' j h; simp [scanAux] at h
  | succ n ih =>
    intro i i' j h
    unfold scanAux at h
    cases hm : m s i with
    | some j0 =>
      rw [hm] at h
      cases h
      exact ⟨hm, Nat.le_refl i,
        fun x hx1 hx2 => absurd (Nat.lt_of_le_of_lt hx1 hx2) (Nat.lt_irrefl i)⟩
    | none =>
      rw [hm] at h
      obtain ⟨h1, h2, h3⟩ := ih (i + 1) i' j h
      refine ⟨h1, by omega, fun x hx1 hx2 => ?_⟩
      rcases Nat.eq_or_lt_of_le hx1 with h | h
      · rw [← h]; exact hm
      · exact h3 x (by omega) hx2

theorem scanAux_isSome (m : Str → Nat → Option Nat) (s : Str) :
    ∀ (k i x j : Nat), i ≤ x → x < i + k → m s x = some j →
      (scanAux m s k i).isSome = true := by
  intro k
  induction k with
  | zero => intro i x j h1 h2; omega
  | succ n ih =>
    intro i x j h1 h2 hm
    unfold scanAux
    cases hmi : m s i with
    | some j0 => simp
    | none =>
      have hne : x ≠ i := by intro h; rw [h, hmi] at hm; cases hm
      exact ih (i + 1) x j (by omega) (by omega) hm

/-! ## Soundness and completeness of the email matcher -/

theorem isLocalChar_at : isLocalChar '@' = false := by decide

theorem isEmailTokAt_iff (T : Char → Bool) (s : Str) (i j : Nat) :
    isEmailTokAt T s i j = true ↔
      (wbAt s i = true ∧ wbAt s j = true ∧
       ∃ l d t : Nat, 1 ≤ l ∧ 1 ≤ d ∧ 2 ≤ t ∧ i + l + 1 + d + 1 + t = j ∧
         segAll isLocalChar s i l = true ∧ s[i + l]? = some '@' ∧
         segAll isDomainChar s (i + l + 1) d = true ∧ s[i + l + 1 + d]? = some '.' ∧
         segAll T s (i + l + 1 + d + 1) t = true) := by
  simp only [isEmailTokAt, Bool.and_eq_true, List.any_eq_true, List.mem_range,
    decide_eq_true_eq]
  constructor
  · rintro ⟨⟨hwi, hwj⟩, l, hlj, ⟨⟨⟨hl1, hlocal⟩, hat⟩, d, hdj,
      ⟨⟨⟨hd1, hdom⟩, hdot⟩, ⟨ht2, hsum⟩, htld⟩⟩⟩
    exact ⟨hwi, hwj, l, d, j - (i + l + 1 + d + 1),
      hl1, hd1, ht2, hsum, hlocal, hat, hdom, hdot, htld⟩
  · rintro ⟨hwi, hwj, l, d, t, hl1, hd1, ht2, hsum, hlocal, hat, hdom, hdot, htld⟩
    have htv : j - (i + l + 1 + d + 1) = t := by omega
    refine ⟨⟨hwi, hwj⟩, l, by omega, ⟨⟨⟨hl1, hlocal⟩, hat⟩, d, by omega,
      ⟨⟨⟨hd1, hdom⟩, hdot⟩, ⟨by omega, by omega⟩, ?_⟩⟩⟩
    rw [htv]
    exact htld

theorem emailMatchAt_sound (s : Str) (i j : Nat) (h : emailMatchAt s i = some j) :
    isEmailTokAt isTldChar s i j = true := by
  unfold emailMatchAt at h
  by_cases hwb : wbAt s i = true
  · rw [if_pos hwb] at h
    simp only at h
    by_cases hl0 : runLen isLocalChar s i = 0
    · rw [if_pos hl0] at h; cases h
    · rw [if_neg hl0] at h
      by_cases hat : s[i + runLen isLocalChar s i]? = some '@'
      · rw [if_pos hat] at h
        obtain ⟨d, hdmem, hd⟩ := findSome?_mem_of_eq_some _ _ _ h
        by_cases hdot : s[i + runLen isLocalChar s i + 1 + d]? = some '.'
        · rw [if_pos hdot] at hd
          obtain ⟨t, htmem, ht⟩ := findSome?_mem_of_eq_some _ _ _ hd
          by_cases hwbe : wbAt s (i + runLen isLocalChar s i + 1 + d + 1 + t) = true
          · rw [if_pos hwbe] at ht
            have hj : j = i + runLen isLocalChar s i + 1 + d + 1 + t := by
              cases ht; rfl
            subst hj
            rw [isEmailTokAt_iff]
            obtain ⟨hd1, hdle⟩ := (mem_descRange _ d).mp hdmem
            obtain ⟨ht2, htle⟩ := (mem_descRangeFrom2 _ t).mp htmem
            refine ⟨hwb, hwbe, runLen isLocalChar s i, d, t, by omega, hd1, ht2, rfl,
              segAll_of_le_runLen _ s i _ (Nat.le_refl _), hat,
              segAll_of_le_runLen _ s _ _ hdle, hdot,
              segAll_of_le_runLen _ s _ _ htle⟩
          · rw [if_neg hwbe] at ht; cases ht
        · rw [if_neg hdot] at hd; cases hd
      · rw [if_neg hat] at h; cases h
  · rw [if_neg hwb] at h; cases h

theorem emailMatchAt_complete (s : Str) (i j : Nat)
    (h : isEmailTokAt isTldChar s i j = true) : (emailMatchAt s i).isSome = true := by
  rw [isEmailTokAt_iff] at h
  obtain ⟨hwi, hwj, l, d, t, hl1, hd1, ht2, hsum, hlocal, hat, hdom, hdot, htld⟩ := h
  have hrl : runLen isLocalChar s i = l :=
    runLen_eq_of_stop _ s i l '@' hlocal hat isLocalChar_at
  unfold emailMatchAt
  rw [if_pos hwi]
  simp only [hrl]
  rw [if_neg (by omega : ¬ l = 0), if_pos hat]
  have hdle : d ≤ runLen isDomainChar s (i + l + 1) :=
    runLen_ge_of_segAll _ s _ _ hdom
  have htle : t ≤ runLen isTldChar s (i + l + 1 + d + 1) :=
    runLen_ge_of_segAll _ s _ _ htld
  have hinner : ((descRangeFrom2 (runLen isTldChar s (i + l + 1 + d + 1))).findSome?
      fun tt => if wbAt s (i + l + 1 + d + 1 + tt) = true
                then some (i + l + 1 + d + 1 + tt) else none).isSome = true := by
    apply findSome?_isSome_of_mem _ _ t (i + l + 1 + d + 1 + t)
      ((mem_descRangeFrom2 _ t).mpr ⟨ht2, htle⟩)
    rw [if_pos (by rw [hsum]; exact hwj)]
  obtain ⟨jj, hjj⟩ := Option.isSome_iff_exists.mp hinner
  apply findSome?_isSome_of_mem _ _ d jj ((mem_descRange _ d).mpr ⟨hd1, hdle⟩)
  rw [if_pos hdot]
  exact hjj

/-! ## Soundness and completeness of the phone matcher -/

theorem isPhoneTokAt_iff (s : Str) (i j : Nat) :
    isPhoneTokAt s i j = true ↔
      (wbAt s i = true ∧ wbAt s j = true ∧
       ∃ a b : Nat, a ≤ 1 ∧ b ≤ 1 ∧
         segAll Char.isDigit s i 3 = true ∧
         (a = 0 ∨ sepAtB s (i + 3) = true) ∧
         segAll Char.isDigit s (i + 3 + a) 3 = true ∧
         (b = 0 ∨ sepAtB s (i + 6 + a) = true) ∧
         segAll Char.isDigit s (i + 6 + a + b) 4 = true ∧
         j = i + 10 + a + b) := by
  simp only [isPhoneTokAt, Bool.and_eq_true, Bool.or_eq_true, List.any_eq_true,
    decide_eq_true_eq]
  constructor
  · rintro ⟨⟨hwi, hwj⟩, ab, habmem, ⟨⟨⟨⟨⟨h3, hsa⟩, h3b⟩, hsb⟩, h4⟩, hj⟩⟩
    simp only [List.mem_cons, List.not_mem_nil, or_false] at habmem
    refine ⟨hwi, hwj, ab.1, ab.2, ?_, ?_, h3, hsa, h3b, hsb, h4, hj⟩ <;>
      (rcases habmem with h | h | h | h <;> subst h <;> decide)
  · rintro ⟨hwi, hwj, a, b, ha, hb, h3, hsa, h3b, hsb, h4, hj⟩
    refine ⟨⟨hwi, hwj⟩, (a, b), ?_, ⟨⟨⟨⟨h3, hsa⟩, h3b⟩, hsb⟩, h4⟩, hj⟩
    interval_cases a <;> interval_cases b <;> simp

theorem mem_sepCandidates_elim (s : Str) (k a : Nat) (h : a ∈ sepCandidates s k) :
    a = 0 ∨ (a = 1 ∧ sepAtB s k = true) := by
  unfold sepCandidates at h
  by_cases hs : sepAtB s k = true
  · rw [if_pos hs] at h
    simp at h
    rcases h with h | h
    · exact Or.inr ⟨h, hs⟩
    · exact Or.inl h
  · rw [if_neg hs] at h
    simp at h
    exact Or.inl h

theorem mem_sepCandidates_intro (s : Str) (k a : Nat)
    (h : a = 0 ∨ (a = 1 ∧ sepAtB s k = true)) : a ∈ sepCandidates s k := by
  unfold sepCandidates
  rcases h with h | ⟨h1, h2⟩
  · subst h
    by_cases hs : sepAtB s k = true
    · rw [if_pos hs]; simp
    · rw [if_neg hs]; simp
  · subst h1
    rw [if_pos h2]
    simp

theorem phoneMatchAt_sound (s : Str) (i j : Nat) (h : phoneMatchAt s i = some j) :
    isPhoneTokAt s i j = true := by
  unfold phoneMatchAt at h
  by_cases hwb : wbAt s i = true
  · rw [if_pos hwb] at h
    by_cases h3 : segAll Char.isDigit s i 3 = true
    · rw [if_pos h3] at h
      obtain ⟨a, hamem, ha⟩ := findSome?_mem_of_eq_some _ _ _ h
      by_cases h3b : segAll Char.isDigit s (i + 3 + a) 3 = true
      · rw [if_pos h3b] at ha
        obtain ⟨b, hbmem, hb⟩ := findSome?_mem_of_eq_some _ _ _ ha
        by_cases hlast : (segAll Char.isDigit s (i + 6 + a + b) 4 = true &&
            wbAt s (i + 10 + a + b) = true) = true
        · rw [if_pos hlast] at hb
          have hj : j = i + 10 + a + b := by cases hb; rfl
          subst hj
          rw [Bool.and_eq_true, decide_eq_true_eq, decide_eq_true_eq] at hlast
          rw [isPhoneTokAt_iff]
          have hae := mem_sepCandidates_elim s _ a hamem
          have hbe := mem_sepCandidates_elim s _ b hbmem
          have ha1 : a ≤ 1 := by rcases hae with h | ⟨h, _⟩ <;> omega
          have hb1 : b ≤ 1 := by rcases hbe with h | ⟨h, _⟩ <;> omega
          refine ⟨hwb, hlast.2, a, b, ha1, hb1, h3, ?_, h3b, ?_, hlast.1, rfl⟩
          · rcases hae with h | ⟨_, h⟩
            · exact Or.inl h
            · exact Or.inr h
          · rcases hbe with h | ⟨_, h⟩
            · exact Or.inl h
            · exact Or.inr h
        · rw [if_neg hlast] at hb; cases hb
      · rw [if_neg h3b] at ha; cases ha
    · rw [if_neg h3] at h; cases h
  · rw [if_neg hwb] at h; cases h

theorem phoneMatchAt_complete (s : Str) (i j : Nat)
    (h : isPhoneTokAt s i j = true) : (phoneMatchAt s i).isSome = true := by
  rw [isPhoneTokAt_iff] at h
  obtain ⟨hwi, hwj, a, b, ha1, hb1, h3, hsa, h3b, hsb, h4, hj⟩ := h
  unfold phoneMatchAt
  rw [if_pos hwi, if_pos h3]
  have hamem : a ∈ sepCandidates s (i + 3) := by
    apply mem_sepCandidates_intro
    rcases hsa with h | h
    · exact Or.inl h
    · rcases Nat.eq_or_lt_of_le ha1 with h1 | h1
      · exact Or.inr ⟨h1, h⟩
      · exact Or.inl (by omega)
  have hbmem : b ∈ sepCandidates s (i + 6 + a) := by
    apply mem_sepCandidates_intro
    rcases hsb with h | h
    · exact Or.inl h
    · rcases Nat.eq_or_lt_of_le hb1 with h1 | h1
      · exact Or.inr ⟨h1, h⟩
      · exact Or.inl (by omega)
  have hinner : ((sepCandidates s (i + 6 + a)).findSome? fun bb =>
      if segAll Char.isDigit s (i + 6 + a + bb) 4 = true &&
         wbAt s (i + 10 + a + bb) = true
      then some (i + 10 + a + bb) else none).isSome = true := by
    apply findSome?_isSome_of_mem _ _ b (i + 10 + a + b) hbmem
    rw [if_pos]
    rw [Bool.and_eq_true, decide_eq_true_eq, decide_eq_true_eq]
    exact ⟨h4, by rw [← hj]; exact hwj⟩
  obtain ⟨jj, hjj⟩ := Option.isSome_iff_exists.mp hinner
  apply findSome?_isSome_of_mem _ _ a jj hamem
  rw [if_pos h3b]
  exact hjj

/-! ## Token containment -/

theorem emailTok_le_length (T : Char → Bool) (s : Str) (i j : Nat)
    (h : isEmailTokAt T s i j = true) : i ≤ s.length ∧ j ≤ s.length := by
  rw [isEmailTokAt_iff] at h
  exact ⟨wbAt_le_length s i h.1, wbAt_le_length s j h.2.1⟩

theorem phoneTok_le_length (s : Str) (i j : Nat)
    (h : isPhoneTokAt s i j = true) : i ≤ s.length ∧ j ≤ s.length := by
  rw [isPhoneTokAt_iff] at h
  exact ⟨wbAt_le_length s i h.1, wbAt_le_length s j h.2.1⟩

theorem containsTok_intro (tok : Str → Nat → Nat → Bool) (s : Str) (i j : Nat)
    (hb : i ≤ s.length ∧ j ≤ s.length) (h : tok s i j = true) :
    containsTok tok s = true := by
  unfold containsTok
  rw [List.any_eq_true]
  refine ⟨i, List.mem_range.mpr (by omega), ?_⟩
  rw [List.any_eq_true]
  exact ⟨j, List.mem_range.mpr (by omega), h⟩

theorem containsTok_elim (tok : Str → Nat → Nat → Bool) (s : Str)
    (h : containsTok tok s = true) : ∃ i j, tok s i j = true := by
  unfold containsTok at h
  rw [List.any_eq_true] at h
  obtain ⟨i, _, hi⟩ := h
  rw [List.any_eq_true] at hi
  obtain ⟨j, _, hj⟩ := hi
  exact ⟨i, j, hj⟩

/-! ## The first match of a pattern -/

theorem firstMatch_none (m : Str → Nat → Option Nat) (s : Str)
    (h : firstMatch m s = none) : ∀ x, x ≤ s.length → m s x = none := by
  intro x hx
  cases hm : m s x with
  | none => rfl
  | some j =>
    have := scanAux_isSome m s (s.length + 1) 0 x j (by omega) (by omega) hm
    unfold firstMatch at h
    rw [h] at this
    cases this

theorem firstMatch_some (m : Str → Nat → Option Nat) (s : Str) (i j : Nat)
    (h : firstMatch m s = some (i, j)) :
    m s i = some j ∧ ∀ x, x < i → m s x = none := by
  unfold firstMatch at h
  obtain ⟨h1, _, h3⟩ := scanAux_eq_some m s (s.length + 1) 0 i j h
  exact ⟨h1, fun x hx => h3 x (by omega) hx⟩

theorem firstMatch_isSome (m : Str → Nat → Option Nat) (s : Str) (x j : Nat)
    (hx : x ≤ s.length) (hm : m s x = some j) : (firstMatch m s).isSome = true :=
  scanAux_isSome m s (s.length + 1) 0 x j (by omega) (by omega) hm

/-! ## The email and phone fields of the extractor -/

theorem email_none_of_noTok (f : Str)
    (h : containsTok (isEmailTokAt isTldChar) f = false) :
    firstMatch emailMatchAt f = none := by
  cases hm : firstMatch emailMatchAt f with
  | none => rfl
  | some ij =>
    obtain ⟨i, j⟩ := ij
    obtain ⟨h1, _⟩ := firstMatch_some _ _ _ _ hm
    have htok := emailMatchAt_sound f i j h1
    have := containsTok_intro _ f i j (emailTok_le_length _ f i j htok) htok
    rw [h] at this
    cases this

theorem email_some_of_tok (f : Str)
    (h : containsTok (isEmailTokAt isTldChar) f = true) :
    ∃ i j, firstMatch emailMatchAt f = some (i, j) ∧
      isEmailTokAt isTldChar f i j = true ∧
      ∀ i' j', isEmailTokAt isTldChar f i' j' = true → i ≤ i' := by
  obtain ⟨i0, j0, htok0⟩ := containsTok_elim _ f h
  have hb0 := emailTok_le_length _ f i0 j0 htok0
  obtain ⟨j0', hj0'⟩ :=
    Option.isSome_iff_exists.mp (emailMatchAt_complete f i0 j0 htok0)
  obtain ⟨ij, hij⟩ := Option.isSome_iff_exists.mp
    (firstMatch_isSome _ f i0 j0' hb0.1 hj0')
  obtain ⟨i, j⟩ := ij
  obtain ⟨h1, h2⟩ := firstMatch_some _ f i j hij
  refine ⟨i, j, hij, emailMatchAt_sound f i j h1, ?_⟩
  intro i' j' htok'
  by_contra hlt
  push_neg at hlt
  have := emailMatchAt_complete f i' j' htok'
  rw [h2 i' hlt] at this
  cases this

theorem phone_none_of_noTok (bo : Str)
    (h : containsTok isPhoneTokAt bo = false) :
    firstMatch phoneMatchAt bo = none := by
  cases hm : firstMatch phoneMatchAt bo with
  | none => rfl
  | some ij =>
    obtain ⟨i, j⟩ := ij
    obtain ⟨h1, _⟩ := firstMatch_some _ _ _ _ hm
    have htok := phoneMatchAt_sound bo i j h1
    have := containsTok_intro _ bo i j (phoneTok_le_length bo i j htok) htok
    rw [h] at this
    cases this

theorem phone_some_of_tok (bo : Str)
    (h : containsTok isPhoneTokAt bo = true) :
    ∃ i j, firstMatch phoneMatchAt bo = some (i, j) ∧
      isPhoneTokAt bo i j = true ∧
      ∀ i' j', isPhoneTokAt bo i' j' = true → i ≤ i' := by
  obtain ⟨i0, j0, htok0⟩ := containsTok_elim _ bo h
  have hb0 := phoneTok_le_length bo i0 j0 htok0
  obtain ⟨j0', hj0'⟩ :=
    Option.isSome_iff_exists.mp (phoneMatchAt_complete bo i0 j0 htok0)
  obtain ⟨ij, hij⟩ := Option.isSome_iff_exists.mp
    (firstMatch_isSome _ bo i0 j0' hb0.1 hj0')
  obtain ⟨i, j⟩ := ij
  obtain ⟨h1, h2⟩ := firstMatch_some _ bo i j hij
  refine ⟨i, j, hij, phoneMatchAt_sound bo i j h1, ?_⟩
  intro i' j' htok'
  by_contra hlt
  push_neg at hlt
  have := phoneMatchAt_complete bo i' j' htok'
  rw [h2 i' hlt] at this
  cases this

/-! ## List helpers for the vehicle field and the handlers -/

theorem find?_none_of_all {α : Type} (p : α → Bool) :
    ∀ l : List α, (∀ x ∈ l, p x = false) → l.find? p = none := by
  intro l
  induction l with
  | nil => intro h; rfl
  | cons a as ih =>
    intro h
    have ha : p a = false := h a (List.mem_cons_self a as)
    rw [List.find?_cons, ha]
    exact ih fun x hx => h x (List.mem_cons_of_mem a hx)

theorem find?_append_first {α : Type} (p : α → Bool) :
    ∀ (l1 : List α) (v : α) (l2 : List α),
      (∀ w ∈ l1, p w = false) → p v = true → (l1 ++ v :: l2).find? p = some v := by
  intro l1
  induction l1 with
  | nil =>
    intro v l2 _ hv
    rw [List.nil_append, List.find?_cons, hv]
  | cons a as ih =>
    intro v l2 h hv
    have ha : p a = false := h a (List.mem_cons_self a as)
    rw [List.cons_append, List.find?_cons, ha]
    exact ih v l2 (fun x hx => h x (List.mem_cons_of_mem a hx)) hv

/-- Shared by the vehicle-field theorems: with no vocabulary keyword
occurring, the extractor falls back to the sentinel. -/
theorem vehicle_default (f su bo : Str)
    (h : ∀ v ∈ vehiclesVocab, occursIn su bo v = false) :
    (extractCore f su bo).vehicle = jstr "Not specified" := by
  show ((vehiclesVocab.find? fun v => occursIn su bo v).getD (jstr "Not specified")) = _
  rw [find?_none_of_all _ vehiclesVocab h]
  rfl

theorem filter_eq_nil_of {α : Type} (p : α → Bool) :
    ∀ l : List α, (∀ x ∈ l, p x = false) → l.filter p = [] := by
  intro l
  induction l with
  | nil => intro h; rfl
  | cons a as ih =>
    intro h
    rw [List.filter_cons, h a (List.mem_cons_self a as)]
    simp only [Bool.false_eq_true, if_false]
    exact ih fun x hx => h x (List.mem_cons_of_mem a hx)

theorem map_id_of {α : Type} (f : α → α) :
    ∀ l : List α, (∀ x ∈ l, f x = x) → l.map f = l := by
  intro l
  induction l with
  | nil => intro h; rfl
  | cons a as ih =>
    intro h
    rw [List.map_cons, h a (List.mem_cons_self a as),
      ih fun x hx => h x (List.mem_cons_of_mem a hx)]

theorem sqlEq_none_right (a : Option Nat) : sqlEqOptNat a none = false := by
  cases a <;> rfl

theorem mem_insertByCreated (a x : LeadRow) :
    ∀ l, a ∈ insertByCreated x l ↔ (a = x ∨ a ∈ l) := by
  intro l
  induction l with
  | nil => simp [insertByCreated]
  | cons y ys ih =>
    by_cases hc : y.created_at ≤ x.created_at
    · simp [insertByCreated, hc, List.mem_cons]
    · simp only [insertByCreated, hc, if_false, List.mem_cons, ih]
      tauto

theorem mem_sortByCreatedDesc (a : LeadRow) :
    ∀ l, a ∈ sortByCreatedDesc l ↔ a ∈ l := by
  intro l
  induction l with
  | nil => simp [sortByCreatedDesc]
  | cons x xs ih =>
    simp only [sortByCreatedDesc, mem_insertByCreated, ih, List.mem_cons]

theorem statusFilter_subset (sq : Option Str) (l1 : List LeadRow) (x : LeadRow)
    (h : x ∈ statusFilter sq l1) : x ∈ l1 := by
  cases sq with
  | none => exact h
  | some st =>
    by_cases he : st.isEmpty = true
    · have hs : statusFilter (some st) l1 = l1 := by
        show (if st.isEmpty = true then l1 else l1.filter fun l => l.status == st) = l1
        rw [if_pos he]
      rw [hs] at h; exact h
    · have hs : statusFilter (some st) l1 = l1.filter fun l => l.status == st := by
        show (if st.isEmpty = true then l1 else l1.filter fun l => l.status == st) = _
        rw [if_neg he]
      rw [hs] at h
      exact (List.mem_filter.mp h).1

theorem getLeads_nonadmin_eq (u : AuthUser) (sq : Option Str) (dq : Option Nat)
    (leads : List LeadRow) (hb : (u.role != jstr "admin") = true) :
    getLeadsHandler u sq dq leads =
      sortByCreatedDesc (statusFilter sq
        (leads.filter fun l => sqlEqOptNat l.dealership_id (tokenDealership u))) := by
  unfold getLeadsHandler
  rw [if_pos hb]

/-! ## Claim theorems -/

/-- Claim C2, counterexample.  The sender address `x@y.a|b` contains no
token of the claim's email pattern (local-part `@` domain `.` TLD of at
least two letters: after the only dot the letter run is just `a`), yet
`extractLeadFromEmail`'s email field is present — the code's TLD class
`[A-Z|a-z]` also accepts `|`, so the whole of `x@y.a|b` matches. -/
theorem c2_counterexample :
    containsTok (isEmailTokAt Char.isAlpha) (jstr "x@y.a|b") = false ∧
    (extractCore (jstr "x@y.a|b") (jstr "") (jstr "")).email =
      some (jstr "x@y.a|b") := by
  exact ⟨by decide, by decide⟩

/-- Claim C2, amended: with the email pattern corrected to the code's TLD
class (at least two characters, each a letter or `|`), the email field is
absent exactly when the sender address contains no such token, and when
tokens exist it is such a token beginning at the earliest position at
which any token begins. -/
theorem c2_email_field (f su bo : Str) :
    (containsTok (isEmailTokAt isTldChar) f = false →
      (extractCore f su bo).email = none) ∧
    (containsTok (isEmailTokAt isTldChar) f = true →
      ∃ i j, (extractCore f su bo).email = some (slice f i j) ∧
        isEmailTokAt isTldChar f i j = true ∧
        ∀ i' j', isEmailTokAt isTldChar f i' j' = true → i ≤ i') := by
  constructor
  · intro h
    show ((firstMatch emailMatchAt f).map fun ij => slice f ij.1 ij.2) = none
    rw [email_none_of_noTok f h]
    rfl
  · intro h
    obtain ⟨i, j, hfm, htok, hmin⟩ := email_some_of_tok f h
    refine ⟨i, j, ?_, htok, hmin⟩
    show ((firstMatch emailMatchAt f).map fun ij => slice f ij.1 ij.2) =
      some (slice f i j)
    rw [hfm]
    rfl

/-- Claim C2, witness for the amended theorem at concrete inputs. -/
theorem c2_email_field_witness :
    (extractCore (jstr "call me maybe") (jstr "s") (jstr "b")).email = none ∧
    ((extractCore (jstr "bob@mail.com") (jstr "s") (jstr "b")).email).isSome = true := by
  constructor
  · exact (c2_email_field (jstr "call me maybe") (jstr "s") (jstr "b")).1 (by decide)
  · obtain ⟨i, j, he, _, _⟩ :=
      (c2_email_field (jstr "bob@mail.com") (jstr "s") (jstr "b")).2 (by decide)
    rw [he]
    rfl

/-- Claim C3: for every subject and body, the notes field is exactly the
fixed-format concatenation embedding the literal subject and the body
prefix `body.take 500` (of length at most 500, and a prefix of the body),
always followed by the truncation marker `...`, also when the body is
shorter than 500 characters. -/
theorem c3_notes_field (f su bo : Str) :
    (extractCore f su bo).notes =
      jstr "Email Subject: " ++ su ++ jstr "\n\nEmail Body: " ++
        bo.take 500 ++ jstr "..." ∧
    (bo.take 500).length ≤ 500 ∧
    bo.take 500 ++ bo.drop 500 = bo := by
  refine ⟨rfl, ?_, List.take_append_drop 500 bo⟩
  rw [List.length_take]
  exact Nat.min_le_left 500 bo.length

/-- Claim C5: the phone field is absent exactly when the body contains no
token of the phone pattern (three digits, optional `-` or `.`, three
digits, optional `-` or `.`, four digits, at word boundaries); when
tokens exist it is such a token beginning at the earliest position at
which any token begins; and only the body is searched — the sender and
subject never influence the phone field. -/
theorem c5_phone_field (f su bo : Str) :
    (containsTok isPhoneTokAt bo = false → (extractCore f su bo).phone = none) ∧
    (containsTok isPhoneTokAt bo = true →
      ∃ i j, (extractCore f su bo).phone = some (slice bo i j) ∧
        isPhoneTokAt bo i j = true ∧
        ∀ i' j', isPhoneTokAt bo i' j' = true → i ≤ i') ∧
    (∀ f' su', (extractCore f' su' bo).phone = (extractCore f su bo).phone) := by
  refine ⟨?_, ?_, fun f' su' => rfl⟩
  · intro h
    show ((firstMatch phoneMatchAt bo).map fun ij => slice bo ij.1 ij.2) = none
    rw [phone_none_of_noTok bo h]
    rfl
  · intro h
    obtain ⟨i, j, hfm, htok, hmin⟩ := phone_some_of_tok bo h
    refine ⟨i, j, ?_, htok, hmin⟩
    show ((firstMatch phoneMatchAt bo).map fun ij => slice bo ij.1 ij.2) =
      some (slice bo i j)
    rw [hfm]
    rfl

/-- Claim C5, witness at concrete inputs. -/
theorem c5_phone_field_witness :
    (extractCore (jstr "a") (jstr "s") (jstr "no digits at all")).phone = none ∧
    ((extractCore (jstr "a") (jstr "s") (jstr "call 555-123-4567")).phone).isSome
      = true := by
  constructor
  · exact (c5_phone_field (jstr "a") (jstr "s") (jstr "no digits at all")).1 (by decide)
  · obtain ⟨i, j, he, _, _⟩ :=
      ((c5_phone_field (jstr "a") (jstr "s") (jstr "call 555-123-4567")).2).1 (by decide)
    rw [he]
    rfl

/-- Claim C6, counterexample.  With subject `toy` and body `ota` the
keyword `toyota` occurs in the concatenation of subject and body, and is
then the first vocabulary keyword occurring there, yet the extractor's
vehicle field is the sentinel `Not specified`: the code tests each
keyword against the subject and the body separately, which is not
equivalent to testing the concatenation. -/
theorem c6_counterexample :
    (extractCore (jstr "a@b.co") (jstr "toy") (jstr "ota")).vehicle =
      jstr "Not specified" ∧
    (vehiclesVocab.find? fun v =>
      strContains (lowerStr (jstr "toy" ++ jstr "ota")) v) = some (jstr "toyota") := by
  exact ⟨by decide, by decide⟩

/-- Claim C6, amended: the vehicle field equals the first keyword in the
fixed vocabulary order that occurs case-insensitively in the subject or
in the body (tested separately, not on their concatenation), and equals
the sentinel `Not specified` when no keyword occurs. -/
theorem c6_vehicle_field (f su bo : Str) :
    ((∀ v ∈ vehiclesVocab, occursIn su bo v = false) →
      (extractCore f su bo).vehicle = jstr "Not specified") ∧
    (∀ v1 v v2, vehiclesVocab = v1 ++ v :: v2 → occursIn su bo v = true →
      (∀ w ∈ v1, occursIn su bo w = false) → (extractCore f su bo).vehicle = v) := by
  constructor
  · exact vehicle_default f su bo
  · intro v1 v v2 hsplit hocc hbefore
    show ((vehiclesVocab.find? fun x => occursIn su bo x).getD (jstr "Not specified")) = v
    rw [hsplit, find?_append_first _ v1 v v2 hbefore hocc]
    rfl

/-- Claim C6, witness for the amended theorem at concrete inputs. -/
theorem c6_vehicle_field_witness :
    (extractCore (jstr "a@b.co") (jstr "hello") (jstr "nothing here")).vehicle =
      jstr "Not specified" ∧
    (extractCore (jstr "a@b.co") (jstr "Honda please") (jstr "plain")).vehicle =
      jstr "honda" := by
  constructor
  · exact (c6_vehicle_field (jstr "a@b.co") (jstr "hello") (jstr "nothing here")).1
      (by decide)
  · exact (c6_vehicle_field (jstr "a@b.co") (jstr "Honda please") (jstr "plain")).2
      [jstr "toyota"] (jstr "honda")
      [jstr "ford", jstr "chevrolet", jstr "nissan", jstr "bmw",
       jstr "mercedes", jstr "audi"]
      (by decide) (by decide) (by decide)

/-- Claim C7: `extractLeadFromEmail` never propagates an exception — its
result is always a value or the null result, every throw of the `try`
block (`extractInner`) is converted by the `catch` into the null result,
and a completed `try` block is returned unchanged. -/
theorem c7_extractor_catches (v1 v2 v3 : JSVal) :
    ((∃ r, extractLeadFromEmail v1 v2 v3 = some r) ∨
      extractLeadFromEmail v1 v2 v3 = none) ∧
    (∀ e, extractInner v1 v2 v3 = Except.error e →
      extractLeadFromEmail v1 v2 v3 = none) ∧
    (∀ r, extractInner v1 v2 v3 = Except.ok r →
      extractLeadFromEmail v1 v2 v3 = some r) := by
  refine ⟨?_, ?_, ?_⟩
  · cases h : extractInner v1 v2 v3 with
    | ok r => exact Or.inl ⟨r, by unfold extractLeadFromEmail; rw [h]⟩
    | error e => exact Or.inr (by unfold extractLeadFromEmail; rw [h])
  · intro e h
    unfold extractLeadFromEmail
    rw [h]
  · intro r h
    unfold extractLeadFromEmail
    rw [h]

/-- Claim C7, witness: a null `from` makes the `try` block throw and the
function returns the null result. -/
theorem c7_extractor_catches_witness :
    extractLeadFromEmail JSVal.vnull JSVal.vnull JSVal.vnull = none :=
  (c7_extractor_catches JSVal.vnull JSVal.vnull JSVal.vnull).2.1 () rfl

/-- Claim C10: on string inputs `extractLeadFromEmail` always returns the
non-null extracted record (name and notes are always present in it, and
the vehicle field falls back to `Not specified` when no keyword occurs),
so `POST /api/process-email` answers `201`, never `400`, on string
inputs. -/
theorem c10_strings_total (f su bo : Str) :
    extractLeadFromEmail (JSVal.vstr f) (JSVal.vstr su) (JSVal.vstr bo) =
      some (extractCore f su bo) ∧
    ((∀ v ∈ vehiclesVocab, occursIn su bo v = false) →
      (extractCore f su bo).vehicle = jstr "Not specified") ∧
    (∀ recvd now seq db,
      (processEmailHandler (JSVal.vstr f) (JSVal.vstr su) (JSVal.vstr bo)
        recvd now seq db).status = 201) := by
  exact ⟨rfl, vehicle_default f su bo, fun recvd now seq db => rfl⟩

/-- Claim C10, witness at concrete string inputs with no extractable
email, phone or vehicle. -/
theorem c10_strings_total_witness :
    extractLeadFromEmail (JSVal.vstr (jstr "noemail")) (JSVal.vstr (jstr "hi"))
      (JSVal.vstr (jstr "nothing")) =
      some (extractCore (jstr "noemail") (jstr "hi") (jstr "nothing")) ∧
    (extractCore (jstr "noemail") (jstr "hi") (jstr "nothing")).vehicle =
      jstr "Not specified" ∧
    (processEmailHandler (JSVal.vstr (jstr "noemail")) (JSVal.vstr (jstr "hi"))
      (JSVal.vstr (jstr "nothing")) 0 0 1 []).status = 201 := by
  refine ⟨(c10_strings_total (jstr "noemail") (jstr "hi") (jstr "nothing")).1,
    (c10_strings_total (jstr "noemail") (jstr "hi") (jstr "nothing")).2.1 (by decide),
    (c10_strings_total (jstr "noemail") (jstr "hi") (jstr "nothing")).2.2 0 0 1 []⟩

/-- Claim C9: `POST /api/process-email` runs the extractor on the
request's from/subject/body; a non-null candidate is inserted — with
source `email`, priority `medium`, status `new`, the extracted contact
fields, and `created_at` from `receivedDate` — and answered with `201`
and the created lead; a null extraction is answered with `400` and no
lead is inserted. -/
theorem c9_process_email (fr su bo : JSVal) (recvd now seq : Nat)
    (db : List LeadRow) :
    (∀ ld, extractLeadFromEmail fr su bo = some ld →
      processEmailHandler fr su bo recvd now seq db =
        ⟨201, some (mkEmailLead ld recvd now seq),
         db ++ [mkEmailLead ld recvd now seq]⟩ ∧
      (mkEmailLead ld recvd now seq).source = jstr "email" ∧
      (mkEmailLead ld recvd now seq).priority = jstr "medium" ∧
      (mkEmailLead ld recvd now seq).status = jstr "new" ∧
      (mkEmailLead ld recvd now seq).customer_name = ld.name ∧
      (mkEmailLead ld recvd now seq).customer_email = ld.email ∧
      (mkEmailLead ld recvd now seq).customer_phone = ld.phone ∧
      (mkEmailLead ld recvd now seq).vehicle_interest = some ld.vehicle ∧
      (mkEmailLead ld recvd now seq).notes = some ld.notes ∧
      (mkEmailLead ld recvd now seq).dealership_id = some 1 ∧
      (mkEmailLead ld recvd now seq).created_at = recvd) ∧
    (extractLeadFromEmail fr su bo = none →
      processEmailHandler fr su bo recvd now seq db = ⟨400, none, db⟩) := by
  constructor
  · intro ld h
    refine ⟨?_, rfl, rfl, rfl, rfl, rfl, rfl, rfl, rfl, rfl, rfl⟩
    unfold processEmailHandler
    rw [h]
  · intro h
    unfold processEmailHandler
    rw [h]

/-- Claim C9, witness: a well-formed email is ingested with `201` and the
seeded defaults; a null request yields `400` and no insertion. -/
theorem c9_process_email_witness :
    processEmailHandler (JSVal.vstr (jstr "a@b.co")) (JSVal.vstr (jstr "s"))
      (JSVal.vstr (jstr "b")) 5 6 1 [] =
      ⟨201, some (mkEmailLead (extractCore (jstr "a@b.co") (jstr "s") (jstr "b")) 5 6 1),
       [mkEmailLead (extractCore (jstr "a@b.co") (jstr "s") (jstr "b")) 5 6 1]⟩ ∧
    processEmailHandler JSVal.vnull JSVal.vnull JSVal.vnull 5 6 1 [] =
      ⟨400, none, []⟩ := by
  constructor
  · exact ((c9_process_email (JSVal.vstr (jstr "a@b.co")) (JSVal.vstr (jstr "s"))
      (JSVal.vstr (jstr "b")) 5 6 1 []).1
      (extractCore (jstr "a@b.co") (jstr "s") (jstr "b")) rfl).1
  · exact (c9_process_email JSVal.vnull JSVal.vnull JSVal.vnull 5 6 1 []).2 rfl

/-- Claim C4: for a non-admin caller, every row of `GET /api/leads` lies
in the caller's own dealership (where the caller's dealership is read
from their row in the users table), and the result is identical for
every value of the `dealership_id` query parameter.  The token payload
carries no `dealership_id`, so the handler's filter compares against SQL
`NULL` and the non-admin result set is in fact empty, which satisfies
both parts. -/
theorem c4_leads_scoped (u : AuthUser) (users : List UserRow) (ur : UserRow)
    (sq : Option Str) (dq1 dq2 : Option Nat) (leads : List LeadRow)
    (hrole : u.role ≠ jstr "admin") (hmem : ur ∈ users) (hid : ur.id = u.userId) :
    (∀ l ∈ getLeadsHandler u sq dq1 leads, l.dealership_id = ur.dealership_id) ∧
    getLeadsHandler u sq dq1 leads = getLeadsHandler u sq dq2 leads := by
  have hb : (u.role != jstr "admin") = true := bne_iff_ne.mpr hrole
  constructor
  · intro l hl
    rw [getLeads_nonadmin_eq u sq dq1 leads hb] at hl
    have hl2 := (mem_sortByCreatedDesc l _).mp hl
    have hl3 := statusFilter_subset sq _ l hl2
    have hl4 := (List.mem_filter.mp hl3).2
    have hf : sqlEqOptNat l.dealership_id (tokenDealership u) = false :=
      sqlEq_none_right l.dealership_id
    rw [hf] at hl4
    cases hl4
  · rw [getLeads_nonadmin_eq u sq dq1 leads hb, getLeads_nonadmin_eq u sq dq2 leads hb]

/-- Claim C4, witness: a concrete sales rep, with two different values of
the `dealership_id` query parameter, over a one-lead table. -/
theorem c4_leads_scoped_witness :
    (∀ l ∈ getLeadsHandler ⟨7, jstr "rep@autoclick.com", jstr "sales_rep"⟩
        (some (jstr "new")) (some 99)
        [⟨1, jstr "John", none, none, none, jstr "manual", none, jstr "medium",
          jstr "new", none, some 1, 0, 0⟩],
      l.dealership_id = some 1) ∧
    getLeadsHandler ⟨7, jstr "rep@autoclick.com", jstr "sales_rep"⟩
        (some (jstr "new")) (some 99)
        [⟨1, jstr "John", none, none, none, jstr "manual", none, jstr "medium",
          jstr "new", none, some 1, 0, 0⟩] =
      getLeadsHandler ⟨7, jstr "rep@autoclick.com", jstr "sales_rep"⟩
        (some (jstr "new")) none
        [⟨1, jstr "John", none, none, none, jstr "manual", none, jstr "medium",
          jstr "new", none, some 1, 0, 0⟩] := by
  exact c4_leads_scoped ⟨7, jstr "rep@autoclick.com", jstr "sales_rep"⟩
    [⟨7, jstr "rep@autoclick.com", jstr "pw", jstr "Rep", jstr "sales_rep",
      some 1, 0, 0⟩]
    ⟨7, jstr "rep@autoclick.com", jstr "pw", jstr "Rep", jstr "sales_rep",
      some 1, 0, 0⟩
    (some (jstr "new")) (some 99) none
    [⟨1, jstr "John", none, none, none, jstr "manual", none, jstr "medium",
      jstr "new", none, some 1, 0, 0⟩]
    (by decide) (by decide) rfl

/-- Claim C8: `PUT /api/leads/:id` maps each stored row through the
UPDATE — a row is rewritten exactly when it matches the id and the
caller's dealership scope, and the rewrite (`applyUpdate`) replaces
exactly the supplied fields, keeping every unsupplied field and the
non-updatable columns at their stored values while stamping
`updated_at`; every row the scope selects lies in the caller's
dealership (read from the users table); and when no stored lead matches
the id within that scope the response is `404` and the table is
unchanged. -/
theorem c8_put_update (u : AuthUser) (users : List UserRow) (ur : UserRow)
    (lid : Nat) (b : PutBody) (now : Nat) (db : List LeadRow)
    (hmem : ur ∈ users) (hid : ur.id = u.userId) :
    ((putLeadHandler u lid b now db).db =
      db.map fun l => if putHits u lid l = true then applyUpdate b now l else l) ∧
    (∀ l : LeadRow,
      (applyUpdate b now l).customer_name =
        (match b.customer_name with | some v => v | none => l.customer_name) ∧
      (applyUpdate b now l).customer_email =
        (match b.customer_email with | some v => some v | none => l.customer_email) ∧
      (applyUpdate b now l).customer_phone =
        (match b.customer_phone with | some v => some v | none => l.customer_phone) ∧
      (applyUpdate b now l).vehicle_interest =
        (match b.vehicle_interest with | some v => some v | none => l.vehicle_interest) ∧
      (applyUpdate b now l).status =
        (match b.status with | some v => v | none => l.status) ∧
      (applyUpdate b now l).notes =
        (match b.notes with | some v => some v | none => l.notes) ∧
      (applyUpdate b now l).priority =
        (match b.priority with | some v => v | none => l.priority) ∧
      (applyUpdate b now l).assigned_to =
        (match b.assigned_to with | some v => some v | none => l.assigned_to) ∧
      (applyUpdate b now l).id = l.id ∧
      (applyUpdate b now l).source = l.source ∧
      (applyUpdate b now l).dealership_id = l.dealership_id ∧
      (applyUpdate b now l).created_at = l.created_at ∧
      (applyUpdate b now l).updated_at = now) ∧
    (∀ l ∈ db, putHits u lid l = true → l.dealership_id = ur.dealership_id) ∧
    ((∀ l ∈ db, ¬(l.id = lid ∧ sqlEqOptNat l.dealership_id (tokenDealership u) = true)) →
      (putLeadHandler u lid b now db).status = 404 ∧
      (putLeadHandler u lid b now db).db = db) := by
  have hfalse : ∀ l : LeadRow, l ∈ db → putHits u lid l = false := by
    intro l _
    unfold putHits
    cases hq : sqlEqOptNat l.dealership_id (tokenDealership u) with
    | false => rw [Bool.and_false]
    | true =>
      have hf : sqlEqOptNat l.dealership_id (tokenDealership u) = false :=
        sqlEq_none_right l.dealership_id
      rw [hf] at hq
      cases hq
  refine ⟨rfl, ?_, ?_, ?_⟩
  · intro l
    refine ⟨rfl, rfl, rfl, rfl, rfl, rfl, rfl, rfl, rfl, rfl, rfl, rfl, rfl⟩
  · intro l hl hhits
    rw [hfalse l hl] at hhits
    cases hhits
  · intro _
    have hfilter : db.filter (putHits u lid) = [] := filter_eq_nil_of _ db hfalse
    have hmap : (db.map fun l =>
        if putHits u lid l = true then applyUpdate b now l else l) = db := by
      apply map_id_of
      intro l hl
      rw [hfalse l hl]
      simp only [Bool.false_eq_true, if_false]
    constructor
    · show (if ((db.filter (putHits u lid)).map (applyUpdate b now)).isEmpty = true
          then 404 else 200) = 404
      rw [hfilter]
      rfl
    · show (db.map fun l =>
        if putHits u lid l = true then applyUpdate b now l else l) = db
      exact hmap

/-- Claim C8, witness: a concrete caller and one stored lead whose id is
requested; nothing matches the caller's scope, so the response is `404`
and the row is untouched. -/
theorem c8_put_update_witness :
    (putLeadHandler ⟨3, jstr "rep@autoclick.com", jstr "sales_rep"⟩ 1
      ⟨some (jstr "New Name"), none, none, none, none, none, none, none⟩ 9
      [⟨1, jstr "John", none, none, none, jstr "manual", none, jstr "medium",
        jstr "new", none, some 1, 0, 0⟩]).status = 404 ∧
    (putLeadHandler ⟨3, jstr "rep@autoclick.com", jstr "sales_rep"⟩ 1
      ⟨some (jstr "New Name"), none, none, none, none, none, none, none⟩ 9
      [⟨1, jstr "John", none, none, none, jstr "manual", none, jstr "medium",
        jstr "new", none, some 1, 0, 0⟩]).db =
      [⟨1, jstr "John", none, none, none, jstr "manual", none, jstr "medium",
        jstr "new", none, some 1, 0, 0⟩] := by
  exact (c8_put_update ⟨3, jstr "rep@autoclick.com", jstr "sales_rep"⟩
    [⟨3, jstr "rep@autoclick.com", jstr "pw", jstr "Rep", jstr "sales_rep",
      some 1, 0, 0⟩]
    ⟨3, jstr "rep@autoclick.com", jstr "pw", jstr "Rep", jstr "sales_rep",
      some 1, 0, 0⟩ 1
    ⟨some (jstr "New Name"), none, none, none, none, none, none, none⟩ 9
    [⟨1, jstr "John", none, none, none, jstr "manual", none, jstr "medium",
      jstr "new", none, some 1, 0, 0⟩]
    (by decide) rfl).2.2.2 (by decide)

/-- Claim C1: running `setupDatabase` twice from an empty database leaves
TWO dealership rows named `AutoClick Motors`, not one — `ON CONFLICT DO
NOTHING` has no unique constraint on `dealerships` to arbitrate, so the
second run inserts a duplicate — while the two demo users are indeed
reset on each run: after the second run (bcrypt outputs `hash3`/`hash4`)
their password hashes, names, roles and `dealership_id` hold exactly the
second run's seeded values (pointing at the duplicate dealership, id 2). -/
theorem c1_setup_twice_eval :
    ((setupDatabase (jstr "hash3") (jstr "hash4")
        (setupDatabase (jstr "hash1") (jstr "hash2") emptyDB)).dealerships.filter
      fun d => d.name == jstr "AutoClick Motors").length = 2 ∧
    (setupDatabase (jstr "hash3") (jstr "hash4")
        (setupDatabase (jstr "hash1") (jstr "hash2") emptyDB)).users.find?
      (fun uu => uu.email == jstr "admin@autoclick.com") =
      some ⟨1, jstr "admin@autoclick.com", jstr "hash3", jstr "Admin User",
        jstr "admin", some 2, 0, 0⟩ ∧
    (setupDatabase (jstr "hash3") (jstr "hash4")
        (setupDatabase (jstr "hash1") (jstr "hash2") emptyDB)).users.find?
      (fun uu => uu.email == jstr "rep@autoclick.com") =
      some ⟨2, jstr "rep@autoclick.com", jstr "hash4", jstr "Sales Representative",
        jstr "sales_rep", some 2, 0, 0⟩ := by
  exact ⟨by decide, by decide, by decide⟩

end LeadMgmt
